import Mathlib

/-!
Verification of the MyCloud restsdk recovery scripts.

This file gives a shallow embedding of the core logic of the repository
(path reconstruction, content resolution, the progress ledger, the resume
copy pipeline, the symlink-farm builder, and the mtime chooser) and proves
or refutes the specified properties about it.

Strings are modelled as lists of characters; the Python string operations
used by the scripts (replace, join, lstrip, os.path.join, os.path.dirname)
are embedded as executable Lean functions with the same semantics on the
inputs the scripts produce.
-/

/-- Strings of the embedded programs, modelled as lists of characters. -/
abbrev Str := List Char

/-- Scanner of the embedded str.replace: while the skip counter is
positive the characters of an already-matched occurrence are consumed
without being rescanned (matches do not overlap); at skip zero a match of
the pattern emits the replacement and schedules the rest of the match to
be skipped, and a non-match copies one character. -/
def pyReplaceGo (old new : Str) : Nat → Str → Str
  | _, [] => []
  | skip + 1, _ :: rest => pyReplaceGo old new skip rest
  | 0, c :: rest =>
    if old.isPrefixOf (c :: rest) && !old.isEmpty then
      new ++ pyReplaceGo old new (old.length - 1) rest
    else
      c :: pyReplaceGo old new 0 rest

/-- Embedding of Python str.replace(old, new): replaces every occurrence of
old, scanning left to right without overlap.  The empty-pattern case (which
Python treats by interleaving new everywhere) is never exercised by the
embedded code: every call site passes a non-empty pattern, the root-name
strip being guarded by Python truthiness. -/
def pyReplace (old new s : Str) : Str :=
  pyReplaceGo old new 0 s

/-- Embedding of the Python substring test (pat in s). -/
def strOccurs (pat : Str) : Str → Bool
  | [] => pat.isEmpty
  | c :: rest => pat.isPrefixOf (c :: rest) || strOccurs pat rest

/-- Embedding of os.path.join for two components: an absolute second
component wins, otherwise a single separator is inserted unless the first
component is empty or already ends in one. -/
def pyJoin (a b : Str) : Str :=
  if b.head? == some '/' then b
  else if a.isEmpty || (a.getLast? == some '/') then a ++ b
  else a ++ '/' :: b

/-- Embedding of os.path.dirname: the part of the path before the final
separator, with trailing separators stripped unless the head is all
separators. -/
def pyDirname (p : Str) : Str :=
  let head := (p.reverse.dropWhile (fun c => !(c == '/'))).reverse
  if !head.isEmpty && head.any (fun c => !(c == '/')) then
    (head.reverse.dropWhile (fun c => c == '/')).reverse
  else head

/-- Set-style insertion used to model filesystem path collections: copying
to an existing path overwrites it, so the collection of present paths gains
the path at most once. -/
def addPath (l : List Str) (p : Str) : List Str :=
  if p ∈ l then l else l ++ [p]

/-- Record identifiers of the Files table; they are uninterpreted keys (TEXT
in the database) and are modelled as natural numbers. -/
abbrev FileId := Nat

/-- One entry of the in-memory index built by load_files_from_db and by the
main script: the display name, the nullable parent pointer and the nullable
content identifier of a Files row. -/
structure FileMeta where
  name : Str
  parent : Option FileId
  contentID : Option Str
deriving DecidableEq

/-- The in-memory index fileDIC / file_dic: a finite map from record id to
metadata, modelled as an association list with unique keys. -/
abbrev FileDic := List (FileId × FileMeta)

/-- Dictionary lookup file_dic[fid], as an Option. -/
def lookupFile (dic : FileDic) (fid : FileId) : Option FileMeta :=
  List.lookup fid dic

/-- The parent-walking while loop of reconstruct_path in
create_symlink_farm.py (lines 96-103): starting from the parent pointer of
the record, prepend each ancestor name while the current id is non-null and
present in the dictionary.  The loop has no cycle guard, so the embedding
carries explicit fuel; a result of none means the loop has not terminated
within the given number of iterations. -/
def walkParents (dic : FileDic) : Nat → Option FileId → List Str → Option (List Str)
  | _, none, acc => some acc
  | fuel, some c, acc =>
    match lookupFile dic c with
    | none => some acc
    | some m =>
      match fuel with
      | 0 => none
      | fuel' + 1 => walkParents dic fuel' m.parent (m.name :: acc)

/-- The root-directory strip of reconstruct_path (lines 112-114): when a
root name is designated and non-empty (Python truthiness), remove every
occurrence of root followed by a separator, then every bare occurrence of
root. -/
def stripRoot (rootStrip : Option Str) (full : Str) : Str :=
  match rootStrip with
  | none => full
  | some root =>
    if root.isEmpty then full
    else pyReplace root [] (pyReplace (root ++ ['/']) [] full)

/-- Lines 106-117 of create_symlink_farm.py: join the collected parts with
a separator, normalize backslashes to forward slashes, strip the designated
root name and remove leading separators. -/
def assemblePath (rootStrip : Option Str) (parts : List Str) : Str :=
  (stripRoot rootStrip (pyReplace ['\\'] ['/'] (List.intercalate ['/'] parts))).dropWhile
    (fun c => c == '/')

/-- reconstruct_path of create_symlink_farm.py: none is returned by the
embedding when the parent walk does not terminate within the fuel; the
inner Option is the Python return value (None for an absent id or an empty
assembled path). -/
def reconstruct_path (fid : FileId) (dic : FileDic) (rootStrip : Option Str) (fuel : Nat) :
    Option (Option Str) :=
  match lookupFile dic fid with
  | none => some none
  | some m =>
    match walkParents dic fuel m.parent [m.name] with
    | none => none
    | some parts =>
      if assemblePath rootStrip parts = [] then some none
      else some (some (assemblePath rootStrip parts))

/-- Embedding of the root-name scan of create_symlink_farm.py (its
source name carries an extra underscore before dir): the name of the first
record whose name contains both the marker substring and a pipe. -/
def find_rootdir_name (dic : FileDic) : Option Str :=
  (dic.find? (fun kv => strOccurs ['a', 'u', 't', 'h'] kv.2.name && kv.2.name.contains '|')).map
    (fun kv => kv.2.name)

/-- findNextParent of restsdk_public.py: scans the dictionary for the id
and returns its parent field; absent ids and null parents both give None. -/
def findNextParent (dic : FileDic) (fid : FileId) : Option FileId :=
  (lookupFile dic fid).bind (fun m => m.parent)

/-- The while loop of findTree in restsdk_public.py.  Each iteration tests
hasAnotherParent(fileID) (a KeyError for an absent id, modelled as the
inner value none), steps to the parent and prepends its name (again a
KeyError if the parent id is dangling).  There is no cycle guard, so the
embedding carries fuel; an outer none means the loop has not terminated
within the fuel. -/
def findTreeLoop (dic : FileDic) : Nat → FileId → Str → Option (Option Str)
  | fuel, fid, path =>
    match lookupFile dic fid with
    | none => some none
    | some m =>
      match m.parent with
      | none => some (some path)
      | some p =>
        match fuel with
        | 0 => none
        | fuel' + 1 =>
          match lookupFile dic p with
          | none => some none
          | some mp => findTreeLoop dic fuel' p (mp.name ++ '/' :: path)

/-- findTree of restsdk_public.py: seeds the path with the name of the
given parent followed by the record name (a KeyError when the parent id is
absent, modelled as the inner none), then runs the parent-walking loop
starting from the record itself. -/
def findTree (dic : FileDic) (fuel : Nat) (fid : FileId) (name : Str) (parent : FileId) :
    Option (Option Str) :=
  match lookupFile dic parent with
  | none => some none
  | some pm => findTreeLoop dic fuel fid (pm.name ++ '/' :: name)

/-- idToPath2 of restsdk_public.py: a record with a parent goes through
findTree, a root record is its own name; an absent id is a KeyError
(modelled as the inner none). -/
def idToPath2 (dic : FileDic) (fid : FileId) (fuel : Nat) : Option (Option Str) :=
  match lookupFile dic fid with
  | none => some none
  | some m =>
    match m.parent with
    | some par => findTree dic fuel fid m.name par
    | none => some (some m.name)

/-- One step of the while-loop condition state of reconstruct_path: the
current id after following one parent pointer, none when the loop guard
(current_id is not None and current_id in file_dic) fails. -/
def nextCur (dic : FileDic) : Option FileId → Option FileId
  | none => none
  | some c =>
    match lookupFile dic c with
    | none => none
    | some m => m.parent

/-- get_source_file_path of create_symlink_farm.py: a falsy content id
resolves to nothing; otherwise the sharded location (first character
lowercased) is tried first and the flat location second, with None (not an
error) when neither exists.  The filesystem is passed as an existence
oracle. -/
def get_source_file_path (content_id : Option Str) (source_dir : Str) (fs : Str → Bool) :
    Option Str :=
  match content_id with
  | none => none
  | some [] => none
  | some (c :: rest) =>
    let file_path := pyJoin (pyJoin source_dir [c.toLower]) (c :: rest)
    if fs file_path then some file_path
    else
      let flat_path := pyJoin source_dir (c :: rest)
      if fs flat_path then some flat_path
      else none

/-- sanitize_path of create_symlink_farm.py. -/
def sanitize_path (p : Str) (sanitizePipes : Bool) : Str :=
  if sanitizePipes then pyReplace ['|'] ['-'] p else p

/-- insert_copied_file of restsdk_public.py: INSERT OR IGNORE into a table
whose primary key is the file id, modelled as append-if-key-absent. -/
def insert_copied_file (tbl : List (FileId × Str)) (fid : FileId) (fname : Str) :
    List (FileId × Str) :=
  if tbl.any (fun r => r.1 == fid) then tbl else tbl ++ [(fid, fname)]

/-- insert_skipped_file of restsdk_public.py: INSERT OR IGNORE into a table
whose primary key is the content filename. -/
def insert_skipped_file (tbl : List (Str × Str)) (fname reason : Str) : List (Str × Str) :=
  if tbl.any (fun r => r.1 == fname) then tbl else tbl ++ [(fname, reason)]

/-- Outcomes returned by copy_worker in the resume flow of
restsdk_public.py. -/
inductive Outcome
  | skipped_already
  | skipped_problem
  | dry_run
  | copied
  | errored
deriving DecidableEq

/-- The mutable state of a resume-mode run: the two ledger tables and the
destination tree (files present and directories created). -/
structure RunState where
  copiedTbl : List (FileId × Str)
  skippedTbl : List (Str × Str)
  destFiles : List Str
  destDirs : List Str
deriving DecidableEq

/-- A row of files_to_copy as used by copy_worker: f[0] is the id, f[2] the
nullable contentID, f[4] the name. -/
structure FileRow where
  fid : FileId
  contentID : Option Str
  name : Str
deriving DecidableEq

/-- The fixed configuration of a resume-mode run. -/
structure RunCfg where
  dic : FileDic
  skipnames : List Str
  dumpdir : Str
  filedir : Str
  dryRun : Bool
  fuel : Nat

/-- Key-membership test of the copied_files table. -/
def copiedHasKey (tbl : List (FileId × Str)) (fid : FileId) : Bool :=
  tbl.any (fun c => c.1 == fid)

/-- Key-membership test of the skipped_files table. -/
def skippedHasKey (tbl : List (Str × Str)) (fn : Str) : Bool :=
  tbl.any (fun s => s.1 == fn)

/-- The run-start snapshot SELECT filename FROM copied_files. -/
def snapCopied (st : RunState) : List Str :=
  st.copiedTbl.map Prod.snd

/-- The run-start snapshot SELECT filename FROM skipped_files. -/
def snapSkipped (st : RunState) : List Str :=
  st.skippedTbl.map Prod.fst

/-- copy_worker of restsdk_public.py (resume flow, lines 242-278).  A null
contentID is in neither snapshot set (None is never a member of a set of
strings), reaches the dry-run branch in a dry run, and otherwise errors
after path reconstruction when os.path.join(filedir, None) raises; both
KeyError during path reconstruction and that TypeError are caught by the
enclosing handler and reported as errored.  The embedding returns none when
the path traversal does not terminate within the fuel. -/
def copy_worker (cfg : RunCfg) (copiedSet skippedSet : List Str) (r : FileRow) (st : RunState) :
    Option (Outcome × RunState) :=
  match r.contentID with
  | some cid =>
    if cid ∈ copiedSet then some (Outcome.skipped_already, st)
    else if cid ∈ skippedSet then some (Outcome.skipped_problem, st)
    else if cfg.dryRun then some (Outcome.dry_run, st)
    else
      match idToPath2 cfg.dic r.fid cfg.fuel with
      | none => none
      | some none => some (Outcome.errored, st)
      | some (some rel0) =>
        let rel1 := cfg.skipnames.foldl (fun acc skip => pyReplace skip [] acc) rel0
        let rel2 := pyReplace ['|'] ['-'] rel1
        let destPath := pyJoin cfg.dumpdir rel2
        some (Outcome.copied,
          { st with
            destDirs := addPath st.destDirs (pyDirname destPath)
            destFiles := addPath st.destFiles destPath
            copiedTbl := insert_copied_file st.copiedTbl r.fid cid })
  | none =>
    if cfg.dryRun then some (Outcome.dry_run, st)
    else
      match idToPath2 cfg.dic r.fid cfg.fuel with
      | none => none
      | some _ => some (Outcome.errored, st)

/-- The outcome copy_worker assigns to a row; it depends only on the row,
the dictionary and the run-start snapshot sets, never on the threaded
state. -/
def classifyRow (cfg : RunCfg) (copiedSet skippedSet : List Str) (r : FileRow) : Option Outcome :=
  match r.contentID with
  | some cid =>
    if cid ∈ copiedSet then some Outcome.skipped_already
    else if cid ∈ skippedSet then some Outcome.skipped_problem
    else if cfg.dryRun then some Outcome.dry_run
    else
      match idToPath2 cfg.dic r.fid cfg.fuel with
      | none => none
      | some none => some Outcome.errored
      | some (some _) => some Outcome.copied
  | none =>
    if cfg.dryRun then some Outcome.dry_run
    else
      match idToPath2 cfg.dic r.fid cfg.fuel with
      | none => none
      | some _ => some Outcome.errored

/-- The SQL filter of the resume flow (lines 213-217): keep the rows with
no copied_files entry for their id and no skipped_files entry for their
contentID; a null contentID never joins. -/
def files_to_copy (recs : List FileRow) (st : RunState) : List FileRow :=
  recs.filter (fun r =>
    !copiedHasKey st.copiedTbl r.fid &&
      (match r.contentID with
       | none => true
       | some cid => !skippedHasKey st.skippedTbl cid))

/-- The worker pool over the filtered rows, modelled as a sequential fold:
copy_worker bases every decision on the run-start snapshot sets, so the
interleaving of workers does not affect outcomes. -/
def runWorkers (cfg : RunCfg) (copiedSet skippedSet : List Str) :
    List FileRow → RunState → Option (List Outcome × RunState)
  | [], st => some ([], st)
  | r :: rest, st =>
    match copy_worker cfg copiedSet skippedSet r st with
    | none => none
    | some (o, st') =>
      match runWorkers cfg copiedSet skippedSet rest st' with
      | none => none
      | some (os, st'') => some (o :: os, st'')

/-- One resume-mode run: filter the rows by the ledger tables, snapshot the
two sets, and process every remaining row. -/
def resumeRun (cfg : RunCfg) (recs : List FileRow) (st : RunState) :
    Option (List Outcome × RunState) :=
  runWorkers cfg (snapCopied st) (snapSkipped st) (files_to_copy recs st) st

/-- Outcomes of one record of create_symlink_farm. -/
inductive FarmOutcome
  | skipped_no_content
  | skipped_no_source
  | error_path
  | would_create
  | skipped_exists
  | created
deriving DecidableEq

/-- The farm-side filesystem state: real (non-symlink) files, symlinks with
their targets, and directories created so far. -/
structure FarmState where
  files : List Str
  links : List (Str × Str)
  dirs : List Str
deriving DecidableEq

/-- The farm path a record resolves to: the reconstructed relative path,
sanitized, joined under the farm directory. -/
def farmPathOf (dic : FileDic) (rootDir : Option Str) (sanitizePipes : Bool) (farmDir : Str)
    (fid : FileId) (fuel : Nat) : Option Str :=
  match reconstruct_path fid dic rootDir fuel with
  | some (some rel) => some (pyJoin farmDir (sanitize_path rel sanitizePipes))
  | _ => none

/-- The per-record body of create_symlink_farm (lines 216-273): skip
records without content, then records whose content resolves to no source
file, then records whose path cannot be reconstructed; report in a dry run;
otherwise create the parent directory, replace an existing symlink, skip an
existing real path, and link.  The embedding returns none when path
reconstruction does not terminate within the fuel. -/
def farmProcessRecord (dic : FileDic) (rootDir : Option Str) (sanitizePipes dryRun : Bool)
    (sourceDir farmDir : Str) (srcFS : Str → Bool) (fuel : Nat) (fid : FileId) (meta : FileMeta)
    (st : FarmState) : Option (FarmOutcome × FarmState) :=
  match meta.contentID with
  | none => some (FarmOutcome.skipped_no_content, st)
  | some cid =>
    match get_source_file_path (some cid) sourceDir srcFS with
    | none => some (FarmOutcome.skipped_no_source, st)
    | some sourcePath =>
      match reconstruct_path fid dic rootDir fuel with
      | none => none
      | some none => some (FarmOutcome.error_path, st)
      | some (some relPath0) =>
        let farmPath := pyJoin farmDir (sanitize_path relPath0 sanitizePipes)
        if dryRun then some (FarmOutcome.would_create, st)
        else
          let st1 := { st with dirs := addPath st.dirs (pyDirname farmPath) }
          if st1.links.any (fun l => l.1 == farmPath) then
            some (FarmOutcome.created,
              { st1 with
                links := st1.links.filter (fun l => !(l.1 == farmPath)) ++
                  [(farmPath, sourcePath)] })
          else if farmPath ∈ st1.files ∨ farmPath ∈ st1.dirs then
            some (FarmOutcome.skipped_exists, st1)
          else
            some (FarmOutcome.created, { st1 with links := st1.links ++ [(farmPath, sourcePath)] })

/-- The timestamp chooser of get_file_info_streaming in sync_mtime.py
(lines 96-102): the first non-null value among imageDate, videoDate, cTime
and birthTime, in that order.  The values are millisecond epoch integers;
the non-numeric (TEXT) case the Python isinstance test would also skip is
not representable in this model. -/
def pickTimestamp (img vid ct bt : Option Int) : Option Int :=
  match img with
  | some t => some t
  | none =>
    match vid with
    | some t => some t
    | none =>
      match ct with
      | some t => some t
      | none => bt

/-! Helper lemmas about the embedded string operations. -/

theorem isPrefixOf_append_self (p t : Str) : p.isPrefixOf (p ++ t) = true := by
  induction p with
  | nil => simp [List.isPrefixOf]
  | cons a as ih => simp [List.isPrefixOf, ih]

theorem isPrefixOf_of_append {p q l : Str} (h : (p ++ q).isPrefixOf l = true) :
    p.isPrefixOf l = true := by
  induction p generalizing l with
  | nil => simp [List.isPrefixOf]
  | cons a as ih =>
    cases l with
    | nil => simp [List.isPrefixOf] at h
    | cons b bs =>
      simp only [List.cons_append, List.isPrefixOf, Bool.and_eq_true] at h ⊢
      exact ⟨h.1, ih h.2⟩

theorem strOccurs_append_eq_false {p q : Str} : ∀ {s : Str}, strOccurs p s = false →
    strOccurs (p ++ q) s = false := by
  intro s
  induction s with
  | nil =>
    intro h
    cases p with
    | nil => simp [strOccurs] at h
    | cons a as => simp [strOccurs]
  | cons c rest ih =>
    intro h
    simp only [strOccurs, Bool.or_eq_false_iff] at h ⊢
    refine ⟨?_, ih h.2⟩
    cases hpq : (p ++ q).isPrefixOf (c :: rest) with
    | false => rfl
    | true => exact absurd (isPrefixOf_of_append hpq) (by simp [h.1])

theorem pyReplaceGo_skip (old new : Str) : ∀ (sk rest : Str),
    pyReplaceGo old new sk.length (sk ++ rest) = pyReplaceGo old new 0 rest := by
  intro sk
  induction sk with
  | nil => intro rest; rfl
  | cons x xs ih =>
    intro rest
    show pyReplaceGo old new (xs.length + 1) (x :: (xs ++ rest)) = pyReplaceGo old new 0 rest
    exact ih rest

theorem pyReplace_of_not_occurs {pat new : Str} : ∀ {s : Str}, strOccurs pat s = false →
    pyReplace pat new s = s := by
  intro s
  induction s with
  | nil => intro _; rfl
  | cons c rest ih =>
    intro h
    simp only [strOccurs, Bool.or_eq_false_iff] at h
    show pyReplaceGo pat new 0 (c :: rest) = c :: rest
    have hstep : pyReplaceGo pat new 0 (c :: rest) =
        if pat.isPrefixOf (c :: rest) && !pat.isEmpty then
          new ++ pyReplaceGo pat new (pat.length - 1) rest
        else c :: pyReplaceGo pat new 0 rest := rfl
    rw [hstep, h.1]
    simp only [Bool.false_and, if_false]
    exact congrArg (c :: ·) (ih h.2)

theorem pyReplace_append_self {pat new t : Str} (hp : pat ≠ []) :
    pyReplace pat new (pat ++ t) = new ++ pyReplace pat new t := by
  cases pat with
  | nil => exact absurd rfl hp
  | cons a os =>
    show pyReplaceGo (a :: os) new 0 ((a :: os) ++ t) = new ++ pyReplaceGo (a :: os) new 0 t
    rw [List.cons_append]
    have hstep : pyReplaceGo (a :: os) new 0 (a :: (os ++ t)) =
        if (a :: os).isPrefixOf (a :: (os ++ t)) && !(a :: os).isEmpty then
          new ++ pyReplaceGo (a :: os) new ((a :: os).length - 1) (os ++ t)
        else a :: pyReplaceGo (a :: os) new 0 (os ++ t) := rfl
    rw [hstep, if_pos]
    · have hlen : (a :: os).length - 1 = os.length := by simp
      rw [hlen, pyReplaceGo_skip]
    · have := isPrefixOf_append_self (a :: os) t
      rw [List.cons_append] at this
      simp [this]

theorem stripRoot_strips_head {root rest : Str} (hroot : root ≠ [])
    (hocc : strOccurs root rest = false) :
    stripRoot (some root) (root ++ '/' :: rest) = rest := by
  have hne : root.isEmpty = false := by
    cases root with
    | nil => exact absurd rfl hroot
    | cons a as => rfl
  have hsplit : root ++ '/' :: rest = (root ++ ['/']) ++ rest := by simp
  simp only [stripRoot, hne]
  rw [hsplit, pyReplace_append_self (by simp), List.nil_append,
    pyReplace_of_not_occurs (strOccurs_append_eq_false hocc),
    pyReplace_of_not_occurs hocc]
  simp

/-! Concrete instances used by the claims. -/

/-- A two-record index whose parent pointers form a cycle. -/
def cycDic : FileDic :=
  [(1, ⟨"a".data, some 2, none⟩), (2, ⟨"b".data, some 1, none⟩)]

/-- The three-record chain of the path-reconstruction example: a root
named lib, a directory named 2019 under it, a file named photo.jpg under
that. -/
def chainDic : FileDic :=
  [(1, ⟨"lib".data, none, none⟩), (2, ⟨"2019".data, some 1, none⟩),
   (3, ⟨"photo.jpg".data, some 2, some "c3".data⟩)]

/-- The index of the unit test test_find_tree_path in
src/test_restsdk_public.py. -/
def testDic : FileDic :=
  [(1, ⟨"parent".data, none, none⟩), (2, ⟨"child".data, some 1, none⟩)]

/-- An index whose synthetic root name also appears as a second path
segment. -/
def exDic : FileDic :=
  [(1, ⟨"auth|x".data, none, none⟩), (2, ⟨"auth|x".data, some 1, none⟩),
   (3, ⟨"photo.jpg".data, some 2, some "cc".data⟩)]

/-- The four-record chain of the synthetic-root stripping example. -/
def authDic : FileDic :=
  [(1, ⟨"auth|xyz".data, none, none⟩), (2, ⟨"lib".data, some 1, none⟩),
   (3, ⟨"2019".data, some 2, none⟩), (4, ⟨"photo.jpg".data, some 3, some "c4".data⟩)]

theorem cyc_guard_invariant : ∀ n : Nat,
    (nextCur cycDic)^[n] (some 2) = some 2 ∨ (nextCur cycDic)^[n] (some 2) = some 1 := by
  intro n
  induction n with
  | zero => exact Or.inl rfl
  | succ k ih =>
    rw [Function.iterate_succ_apply']
    rcases ih with h | h <;> rw [h]
    · exact Or.inr rfl
    · exact Or.inl rfl

theorem cyc_walk_diverges : ∀ fuel : Nat, ∀ acc : List Str,
    walkParents cycDic fuel (some 1) acc = none ∧
      walkParents cycDic fuel (some 2) acc = none := by
  intro fuel
  induction fuel with
  | zero => intro acc; exact ⟨rfl, rfl⟩
  | succ k ih => intro acc; exact ⟨(ih _).2, (ih _).1⟩

theorem cyc_findTreeLoop_diverges : ∀ fuel : Nat, ∀ path : Str,
    findTreeLoop cycDic fuel 1 path = none ∧ findTreeLoop cycDic fuel 2 path = none := by
  intro fuel
  induction fuel with
  | zero => intro path; exact ⟨rfl, rfl⟩
  | succ k ih => intro path; exact ⟨(ih _).2, (ih _).1⟩

/-- C1: the claim states that a cyclic parent chain makes reconstruction
fail with a CycleFault instead of looping forever.  The code has no such
guard: on the two-record cycle the loop guard of reconstruct_path (current
id non-null and present) holds after every number of iterations, and both
reconstruct_path and idToPath2 fail to return for every iteration bound,
so the traversal loops forever and never raises any fault. -/
theorem cycle_traversal_never_faults :
    (∀ n : Nat, ∃ c, (nextCur cycDic)^[n] (some 2) = some c ∧
      (lookupFile cycDic c).isSome = true)
  ∧ (∀ fuel : Nat, reconstruct_path 1 cycDic none fuel = none)
  ∧ (∀ fuel : Nat, idToPath2 cycDic 1 fuel = none) := by
  refine ⟨?_, ?_, ?_⟩
  · intro n
    rcases cyc_guard_invariant n with h | h
    · exact ⟨2, h, rfl⟩
    · exact ⟨1, h, rfl⟩
  · intro fuel
    show (match walkParents cycDic fuel (some 2) ["a".data] with
      | none => none
      | some parts =>
        if assemblePath none parts = [] then some none
        else some (some (assemblePath none parts))) = none
    rw [(cyc_walk_diverges fuel _).2]
  · intro fuel
    show findTreeLoop cycDic fuel 1 ("b".data ++ '/' :: "a".data) = none
    exact (cyc_findTreeLoop_diverges fuel _).1

/-- C2: for the chain root lib, directory 2019, file photo.jpg, the claim
says reconstruction yields exactly lib/2019/photo.jpg with each ancestor
name appearing once.  reconstruct_path of create_symlink_farm.py does;
idToPath2/findTree of restsdk_public.py duplicates the immediate parent
segment, returning lib/2019/2019/photo.jpg, and on the input of the
repository unit test test_find_tree_path returns parent/parent/file.txt
where that test expects parent/file.txt. -/
theorem chain_reconstruction_eval :
    reconstruct_path 3 chainDic none 10 = some (some "lib/2019/photo.jpg".data)
  ∧ idToPath2 chainDic 3 10 = some (some "lib/2019/2019/photo.jpg".data)
  ∧ findTree testDic 10 2 "file.txt".data 1 = some (some "parent/parent/file.txt".data)
  ∧ "lib/2019/2019/photo.jpg".data ≠ "lib/2019/photo.jpg".data
  ∧ "parent/parent/file.txt".data ≠ "parent/file.txt".data := by
  refine ⟨by decide, by decide, by decide, by decide, by decide⟩

/-- C3 counterexample: the claim says exactly one occurrence of the
synthetic-root segment is stripped and no other segment is altered.  On an
index whose root name auth|x also occurs as a second segment, the assembled
path auth|x/auth|x/photo.jpg reconstructs to photo.jpg, not to the
auth|x/photo.jpg the claim requires: the replace-based strip removes every
occurrence. -/
theorem strip_removes_every_occurrence :
    find_rootdir_name exDic = some "auth|x".data
  ∧ reconstruct_path 3 exDic (some "auth|x".data) 10 = some (some "photo.jpg".data)
  ∧ "photo.jpg".data ≠ "auth|x/photo.jpg".data := by
  refine ⟨by decide, by decide, by decide⟩

/-- C3 (amended): stripping removes every occurrence of the root name; when
the assembled path starts with the synthetic root segment and the root name
occurs nowhere in the remainder (which is non-empty and does not begin with
a separator), reconstruction returns exactly the remainder, with no other
segment altered. -/
theorem stripRoot_exact_when_unique (dic : FileDic) (fid : FileId) (fuel : Nat)
    (root rest : Str) (m : FileMeta) (parts : List Str)
    (hm : lookupFile dic fid = some m)
    (hw : walkParents dic fuel m.parent [m.name] = some parts)
    (hroot : root ≠ [])
    (hfull : pyReplace ['\\'] ['/'] (List.intercalate ['/'] parts) = root ++ '/' :: rest)
    (hocc : strOccurs root rest = false)
    (hhead : rest.head? ≠ some '/')
    (hne : rest ≠ []) :
    reconstruct_path fid dic (some root) fuel = some (some rest) := by
  have hassem : assemblePath (some root) parts = rest := by
    unfold assemblePath
    rw [hfull, stripRoot_strips_head hroot hocc]
    cases rest with
    | nil => rfl
    | cons c cs =>
      simp only [List.head?] at hhead
      have hc : (c == '/') = false := by
        cases hcc : (c == '/') with
        | false => rfl
        | true => exact absurd (congrArg some (by simpa using hcc)) hhead
      simp [List.dropWhile, hc]
  simp only [reconstruct_path, hm, hw, hassem]
  rw [if_neg hne]

/-- C3 amended witness: on the four-record chain with synthetic root
auth|xyz, the path that would otherwise be auth|xyz/lib/2019/photo.jpg
reconstructs to lib/2019/photo.jpg. -/
theorem stripRoot_exact_when_unique_witness :
    reconstruct_path 4 authDic (some "auth|xyz".data) 10 =
      some (some "lib/2019/photo.jpg".data) :=
  stripRoot_exact_when_unique authDic 4 10 "auth|xyz".data "lib/2019/photo.jpg".data
    ⟨"photo.jpg".data, some 3, some "c4".data⟩
    (List.cons "auth|xyz".data ["lib".data, "2019".data, "photo.jpg".data])
    (by decide) (by decide) (by decide) (by decide) (by decide) (by decide) (by decide)

/-- C9: reconstruct_path returns null exactly when the starting id is
absent from the loaded index or when the assembled path is empty after
stripping; for an id present in the index whose parent traversal
terminates and whose stripped path is non-empty, it returns that non-empty
path. -/
theorem reconstruct_null_contract (dic : FileDic) (fid : FileId) (rootStrip : Option Str)
    (fuel : Nat) :
    (lookupFile dic fid = none → reconstruct_path fid dic rootStrip fuel = some none)
  ∧ (∀ p, reconstruct_path fid dic rootStrip fuel = some (some p) → p ≠ [])
  ∧ (∀ m parts, lookupFile dic fid = some m →
      walkParents dic fuel m.parent [m.name] = some parts →
      ((reconstruct_path fid dic rootStrip fuel = some none ↔
          assemblePath rootStrip parts = [])
        ∧ (assemblePath rootStrip parts ≠ [] →
            reconstruct_path fid dic rootStrip fuel =
              some (some (assemblePath rootStrip parts))))) := by
  refine ⟨?_, ?_, ?_⟩
  · intro h
    simp only [reconstruct_path, h]
  · intro p hp
    cases hm : lookupFile dic fid with
    | none => simp only [reconstruct_path, hm] at hp; cases hp
    | some m =>
      cases hw : walkParents dic fuel m.parent [m.name] with
      | none => simp only [reconstruct_path, hm, hw] at hp; cases hp
      | some parts =>
        simp only [reconstruct_path, hm, hw] at hp
        by_cases he : assemblePath rootStrip parts = []
        · rw [if_pos he] at hp; cases hp
        · rw [if_neg he] at hp
          injection hp with hp1
          injection hp1 with hp2
          rw [← hp2]
          exact he
  · intro m parts hm hw
    refine ⟨⟨?_, ?_⟩, ?_⟩
    · intro h
      simp only [reconstruct_path, hm, hw] at h
      by_cases he : assemblePath rootStrip parts = []
      · exact he
      · rw [if_neg he] at h; cases h
    · intro he
      simp only [reconstruct_path, hm, hw]
      rw [if_pos he]
    · intro he
      simp only [reconstruct_path, hm, hw]
      rw [if_neg he]

/-- C9 witness: on the three-record chain, an absent id returns null, and
the file record returns the non-empty path lib/2019/photo.jpg. -/
theorem reconstruct_null_contract_witness :
    reconstruct_path 99 chainDic none 10 = some none
  ∧ "lib/2019/photo.jpg".data ≠ []
  ∧ reconstruct_path 3 chainDic none 10 = some (some "lib/2019/photo.jpg".data) := by
  refine ⟨?_, ?_, ?_⟩
  · exact (reconstruct_null_contract chainDic 99 none 10).1 (by decide)
  · exact (reconstruct_null_contract chainDic 3 none 10).2.1 "lib/2019/photo.jpg".data
      (by decide)
  · have h := ((reconstruct_null_contract chainDic 3 none 10).2.2
      ⟨"photo.jpg".data, some 2, some "c3".data⟩
      ["lib".data, "2019".data, "photo.jpg".data] (by decide) (by decide)).2 (by decide)
    rw [h]
    decide

/-- C6: the content resolver tries the sharded location (first character
of the content id, lowercased, as the shard directory) first, falls back
to the flat location, and returns null rather than an error when neither
exists; a null or empty content id resolves to nothing. -/
theorem resolver_shard_then_flat (c : Char) (rest srcDir : Str) (fs : Str → Bool) :
    get_source_file_path none srcDir fs = none
  ∧ get_source_file_path (some []) srcDir fs = none
  ∧ (fs (pyJoin (pyJoin srcDir [c.toLower]) (c :: rest)) = true →
      get_source_file_path (some (c :: rest)) srcDir fs =
        some (pyJoin (pyJoin srcDir [c.toLower]) (c :: rest)))
  ∧ (fs (pyJoin (pyJoin srcDir [c.toLower]) (c :: rest)) = false →
      fs (pyJoin srcDir (c :: rest)) = true →
      get_source_file_path (some (c :: rest)) srcDir fs = some (pyJoin srcDir (c :: rest)))
  ∧ (fs (pyJoin (pyJoin srcDir [c.toLower]) (c :: rest)) = false →
      fs (pyJoin srcDir (c :: rest)) = false →
      get_source_file_path (some (c :: rest)) srcDir fs = none) := by
  refine ⟨rfl, rfl, ?_, ?_, ?_⟩
  · intro h1
    simp [get_source_file_path, h1]
  · intro h1 h2
    simp [get_source_file_path, h1, h2]
  · intro h1 h2
    simp [get_source_file_path, h1, h2]

/-- C6 witness: content id abc123 present only at the flat location
source/abc123 (not under source/a/abc123) resolves via the flat-layout
fallback. -/
theorem resolver_shard_then_flat_witness :
    get_source_file_path (some "abc123".data) "source".data
      (fun p => p == "source/abc123".data) = some "source/abc123".data := by
  have h := (resolver_shard_then_flat 'a' "bc123".data "source".data
    (fun p => p == "source/abc123".data)).2.2.2.1 (by decide) (by decide)
  rw [h]
  decide

/-- The number of rows carrying a given key, used to state the primary-key
properties of the ledger tables. -/
def countKey {α : Type} [BEq α] (keys : List α) (k : α) : Nat :=
  (keys.filter (fun x => x == k)).length

theorem countKey_eq_zero {α : Type} [BEq α] [LawfulBEq α] {l : List α} {a : α}
    (h : a ∉ l) : countKey l a = 0 := by
  unfold countKey
  rw [List.filter_eq_nil_iff.mpr]
  · rfl
  · intro x hx
    simp only [Bool.not_eq_true, beq_eq_false_iff_ne]
    intro hxa
    exact h (hxa ▸ hx)

theorem countKey_eq_one_of_nodup_mem {α : Type} [BEq α] [LawfulBEq α] {l : List α} {a : α}
    (hnd : l.Nodup) (hm : a ∈ l) : countKey l a = 1 := by
  induction l with
  | nil => cases hm
  | cons b bs ih =>
    rcases List.mem_cons.mp hm with hab | ha
    · subst hab
      have hnotmem : a ∉ bs := (List.nodup_cons.mp hnd).1
      unfold countKey
      simp only [List.filter_cons, beq_self_eq_true, if_pos, List.length_cons]
      have := countKey_eq_zero (l := bs) hnotmem
      unfold countKey at this
      omega
    · have hba : (b == a) = false := by
        have hbs := (List.nodup_cons.mp hnd).1
        simp only [beq_eq_false_iff_ne]
        intro hb
        exact hbs (hb ▸ ha)
      unfold countKey
      simp only [List.filter_cons, hba]
      exact ih (List.nodup_cons.mp hnd).2 ha

theorem insert_copied_file_hasKey (tbl : List (FileId × Str)) (fid : FileId) (fn : Str) :
    (insert_copied_file tbl fid fn).any (fun r => r.1 == fid) = true := by
  by_cases h : tbl.any (fun r => r.1 == fid) = true
  · simp [insert_copied_file, h]
  · rw [insert_copied_file, if_neg h]
    simp [List.any_append]

theorem insert_skipped_file_hasKey (tbl : List (Str × Str)) (fn r : Str) :
    (insert_skipped_file tbl fn r).any (fun s => s.1 == fn) = true := by
  by_cases h : tbl.any (fun s => s.1 == fn) = true
  · simp [insert_skipped_file, h]
  · rw [insert_skipped_file, if_neg h]
    simp [List.any_append]

/-- C7: the ledger insert operations are idempotent insert-if-absent: a
second mark for an already-present key changes nothing, and on a table
whose keys are unique (the primary-key invariant) the result holds exactly
one row for the key; likewise for the skipped table keyed by content
filename. -/
theorem ledger_insert_idempotent (tbl : List (FileId × Str)) (fid : FileId) (fn fn' : Str)
    (stbl : List (Str × Str)) (sfn sr sr' : Str) :
    insert_copied_file (insert_copied_file tbl fid fn) fid fn' = insert_copied_file tbl fid fn
  ∧ ((tbl.map Prod.fst).Nodup →
      countKey ((insert_copied_file tbl fid fn).map Prod.fst) fid = 1
      ∧ ((insert_copied_file tbl fid fn).map Prod.fst).Nodup)
  ∧ insert_skipped_file (insert_skipped_file stbl sfn sr) sfn sr' =
      insert_skipped_file stbl sfn sr
  ∧ ((stbl.map Prod.fst).Nodup →
      countKey ((insert_skipped_file stbl sfn sr).map Prod.fst) sfn = 1) := by
  refine ⟨?_, ?_, ?_, ?_⟩
  · rw [insert_copied_file, if_pos (insert_copied_file_hasKey tbl fid fn)]
  · intro hnd
    by_cases h : tbl.any (fun r => r.1 == fid) = true
    · have hmem : fid ∈ tbl.map Prod.fst := by
        rcases List.any_eq_true.mp h with ⟨x, hx, hbx⟩
        exact List.mem_map.mpr ⟨x, hx, by simpa using hbx⟩
      rw [insert_copied_file, if_pos h]
      exact ⟨countKey_eq_one_of_nodup_mem hnd hmem, hnd⟩
    · have hnmem : fid ∉ tbl.map Prod.fst := by
        intro hmem
        rcases List.mem_map.mp hmem with ⟨x, hx, hfx⟩
        exact h (List.any_eq_true.mpr ⟨x, hx, by simp [hfx]⟩)
      rw [insert_copied_file, if_neg h, List.map_append]
      constructor
      · unfold countKey
        rw [List.filter_append, List.length_append]
        have h0 := countKey_eq_zero hnmem
        unfold countKey at h0
        simp [h0]
      · rw [List.nodup_append]
        refine ⟨hnd, by simp, ?_⟩
        intro a ha hb
        simp only [List.map_cons, List.map_nil, List.mem_singleton] at hb
        exact hnmem (hb ▸ ha)
  · rw [insert_skipped_file, if_pos (insert_skipped_file_hasKey stbl sfn sr)]
  · intro hnd
    by_cases h : stbl.any (fun s => s.1 == sfn) = true
    · have hmem : sfn ∈ stbl.map Prod.fst := by
        rcases List.any_eq_true.mp h with ⟨x, hx, hbx⟩
        exact List.mem_map.mpr ⟨x, hx, by simpa using hbx⟩
      rw [insert_skipped_file, if_pos h]
      exact countKey_eq_one_of_nodup_mem hnd hmem
    · have hnmem : sfn ∉ stbl.map Prod.fst := by
        intro hmem
        rcases List.mem_map.mp hmem with ⟨x, hx, hfx⟩
        exact h (List.any_eq_true.mpr ⟨x, hx, by simp [hfx]⟩)
      rw [insert_skipped_file, if_neg h, List.map_append]
      unfold countKey
      rw [List.filter_append, List.length_append]
      have h0 := countKey_eq_zero hnmem
      unfold countKey at h0
      simp [h0]

/-- C7 witness: marking file id 7 as copied twice on an empty ledger
leaves exactly one row keyed 7, and the second call changes nothing. -/
theorem ledger_insert_idempotent_witness :
    insert_copied_file (insert_copied_file [] 7 "cid7".data) 7 "other".data =
      insert_copied_file [] 7 "cid7".data
  ∧ countKey ((insert_copied_file [] 7 "cid7".data).map Prod.fst) 7 = 1 := by
  have h := ledger_insert_idempotent [] 7 "cid7".data "other".data [] "f".data "r".data "r".data
  exact ⟨h.1, (h.2.1 (by decide)).1⟩

/-- C8: the modification timestamp of a record is the first non-null value
among image date, video date, creation time and birth time, in that fixed
priority order; in particular a record with both an image date and a video
date uses the image date. -/
theorem timestamp_priority (img vid ct bt : Option Int) :
    (∀ t, img = some t → pickTimestamp img vid ct bt = some t)
  ∧ (img = none → ∀ t, vid = some t → pickTimestamp img vid ct bt = some t)
  ∧ (img = none → vid = none → ∀ t, ct = some t → pickTimestamp img vid ct bt = some t)
  ∧ (img = none → vid = none → ct = none → pickTimestamp img vid ct bt = bt) := by
  refine ⟨?_, ?_, ?_, ?_⟩
  · intro t h
    subst h
    rfl
  · intro h1 t h2
    subst h1
    subst h2
    rfl
  · intro h1 h2 t h3
    subst h1
    subst h2
    subst h3
    rfl
  · intro h1 h2 h3
    subst h1
    subst h2
    subst h3
    rfl

/-- C8 witness: with image date 5 and video date 3 both set, the image
date wins. -/
theorem timestamp_priority_witness :
    pickTimestamp (some 5) (some 3) none none = some 5 :=
  (timestamp_priority (some 5) (some 3) none none).1 5 rfl

/-! Concrete run configurations used by the pipeline claims. -/

def st0W : RunState := ⟨[], [], [], []⟩

def cfgW : RunCfg := ⟨chainDic, [], "dump".data, "files".data, false, 10⟩

def cfgDryW : RunCfg := ⟨chainDic, [], "dump".data, "files".data, true, 10⟩

def rowW : FileRow := ⟨3, some "c3".data, "photo.jpg".data⟩

def st1W : RunState :=
  ⟨[(3, "c3".data)], [], ["dump/lib/2019/2019/photo.jpg".data], ["dump/lib/2019/2019".data]⟩

def dirDicW : FileDic := [(1, ⟨"lib".data, none, none⟩)]

def cfgDirW : RunCfg := ⟨dirDicW, [], "dump".data, "files".data, false, 10⟩

def dirRowW : FileRow := ⟨1, none, "lib".data⟩

def farmSt0 : FarmState := ⟨[], [], []⟩

def metaW : FileMeta := ⟨"photo.jpg".data, some 2, some "c3".data⟩

def farmFS : Str → Bool := fun p => p == "files/c/c3".data

def farmStExist : FarmState := ⟨["farm/lib/2019/photo.jpg".data], [], []⟩

def farmStExistAfter : FarmState :=
  ⟨["farm/lib/2019/photo.jpg".data], [], ["farm/lib/2019".data]⟩

/-- C5: in dry-run mode copy_worker always returns, reports the outcome of
its ledger-set classification, and leaves the run state (destination
files, directories and both ledger tables) unchanged and never copies; the
per-record farm builder in dry-run mode performs source resolution and
path reconstruction, reports the would-be outcome, and leaves the farm
state unchanged with nothing created. -/
theorem dry_run_no_side_effects (cfg : RunCfg) (copiedSet skippedSet : List Str) (r : FileRow)
    (st : RunState) (dic : FileDic) (rootDir : Option Str) (sp : Bool) (srcD farmD : Str)
    (srcFS : Str → Bool) (fuel : Nat) (fid : FileId) (meta : FileMeta) (fst0 : FarmState) :
    (cfg.dryRun = true →
      (copy_worker cfg copiedSet skippedSet r st).map Prod.snd = some st
      ∧ (∀ o st', copy_worker cfg copiedSet skippedSet r st = some (o, st') →
          o ≠ Outcome.copied))
  ∧ (∀ o st', farmProcessRecord dic rootDir sp true srcD farmD srcFS fuel fid meta fst0 =
      some (o, st') → st' = fst0 ∧ o ≠ FarmOutcome.created) := by
  constructor
  · intro hdry
    have hcw : ∃ oc, (oc = Outcome.skipped_already ∨ oc = Outcome.skipped_problem ∨
        oc = Outcome.dry_run) ∧
        copy_worker cfg copiedSet skippedSet r st = some (oc, st) := by
      cases hc : r.contentID with
      | some cid =>
        by_cases h1 : cid ∈ copiedSet
        · exact ⟨Outcome.skipped_already, Or.inl rfl, by simp [copy_worker, hc, h1]⟩
        · by_cases h2 : cid ∈ skippedSet
          · exact ⟨Outcome.skipped_problem, Or.inr (Or.inl rfl),
              by simp [copy_worker, hc, h1, h2]⟩
          · exact ⟨Outcome.dry_run, Or.inr (Or.inr rfl),
              by simp [copy_worker, hc, h1, h2, hdry]⟩
      | none => exact ⟨Outcome.dry_run, Or.inr (Or.inr rfl), by simp [copy_worker, hc, hdry]⟩
    rcases hcw with ⟨oc, hoc, hcw⟩
    constructor
    · rw [hcw]
      rfl
    · intro o st' h
      rw [hcw] at h
      injection h with h'
      have := (Prod.mk.injEq _ _ _ _).mp h'
      rw [← this.1]
      rcases hoc with h | h | h <;> rw [h] <;> decide
  · intro o st' h
    cases hc : meta.contentID with
    | none =>
      simp only [farmProcessRecord, hc] at h
      injection h with h'
      have := (Prod.mk.injEq _ _ _ _).mp h'
      exact ⟨this.2.symm, by rw [← this.1]; decide⟩
    | some cid =>
      cases hs : get_source_file_path (some cid) srcD srcFS with
      | none =>
        simp only [farmProcessRecord, hc, hs] at h
        injection h with h'
        have := (Prod.mk.injEq _ _ _ _).mp h'
        exact ⟨this.2.symm, by rw [← this.1]; decide⟩
      | some sourcePath =>
        cases hr : reconstruct_path fid dic rootDir fuel with
        | none => simp only [farmProcessRecord, hc, hs, hr] at h; cases h
        | some ro =>
          cases ro with
          | none =>
            simp only [farmProcessRecord, hc, hs, hr] at h
            injection h with h'
            have := (Prod.mk.injEq _ _ _ _).mp h'
            exact ⟨this.2.symm, by rw [← this.1]; decide⟩
          | some rel =>
            simp only [farmProcessRecord, hc, hs, hr, if_true] at h
            injection h with h'
            have := (Prod.mk.injEq _ _ _ _).mp h'
            exact ⟨this.2.symm, by rw [← this.1]; decide⟩

/-- C5 witness: a dry-run copy_worker over the chain record leaves the
empty run state unchanged, and a dry-run farm pass over the same record
reports would-create and leaves the empty farm state unchanged. -/
theorem dry_run_no_side_effects_witness :
    (copy_worker cfgDryW [] [] rowW st0W).map Prod.snd = some st0W
  ∧ (farmSt0 = farmSt0 ∧ FarmOutcome.would_create ≠ FarmOutcome.created) := by
  have h := dry_run_no_side_effects cfgDryW [] [] rowW st0W chainDic none false "files".data
    "farm".data farmFS 10 3 metaW farmSt0
  exact ⟨(h.1 rfl).1, h.2 FarmOutcome.would_create farmSt0 (by decide)⟩

/-- C10: building the farm without dry-run never deletes or overwrites a
real file: the set of real files is unchanged by every record; a record
whose farm path is an existing non-symlink file ends skipped with the
links unchanged (no link is created over the file); and a link can
disappear only at the record farm path, where it is replaced by a fresh
link (only current symlinks are removed and re-linked). -/
theorem farm_preserves_real_files (dic : FileDic) (rootDir : Option Str) (sp : Bool)
    (srcD farmD : Str) (srcFS : Str → Bool) (fuel : Nat) (fid : FileId) (meta : FileMeta)
    (st : FarmState) (o : FarmOutcome) (st' : FarmState)
    (h : farmProcessRecord dic rootDir sp false srcD farmD srcFS fuel fid meta st =
      some (o, st')) :
    st'.files = st.files
  ∧ (∀ fp, farmPathOf dic rootDir sp farmD fid fuel = some fp →
      fp ∈ st.files → st.links.any (fun l => l.1 == fp) = false →
      (o = FarmOutcome.skipped_exists ∨ o = FarmOutcome.skipped_no_content ∨
        o = FarmOutcome.skipped_no_source)
      ∧ st'.links = st.links)
  ∧ (∀ pr, pr ∈ st.links → pr ∉ st'.links →
      farmPathOf dic rootDir sp farmD fid fuel = some pr.1 ∧ ∃ t, (pr.1, t) ∈ st'.links) := by
  cases hc : meta.contentID with
  | none =>
    simp only [farmProcessRecord, hc] at h
    injection h with h'
    have hp := (Prod.mk.injEq _ _ _ _).mp h'
    rw [← hp.1, ← hp.2]
    refine ⟨rfl, ?_, ?_⟩
    · intro fp _ _ _
      exact ⟨Or.inr (Or.inl rfl), rfl⟩
    · intro pr hin hout
      exact absurd hin hout
  | some cid =>
    cases hs : get_source_file_path (some cid) srcD srcFS with
    | none =>
      simp only [farmProcessRecord, hc, hs] at h
      injection h with h'
      have hp := (Prod.mk.injEq _ _ _ _).mp h'
      rw [← hp.1, ← hp.2]
      refine ⟨rfl, ?_, ?_⟩
      · intro fp _ _ _
        exact ⟨Or.inr (Or.inr rfl), rfl⟩
      · intro pr hin hout
        exact absurd hin hout
    | some sourcePath =>
      cases hr : reconstruct_path fid dic rootDir fuel with
      | none => simp only [farmProcessRecord, hc, hs, hr] at h; cases h
      | some ro =>
        cases ro with
        | none =>
          simp only [farmProcessRecord, hc, hs, hr] at h
          injection h with h'
          have hp := (Prod.mk.injEq _ _ _ _).mp h'
          rw [← hp.1, ← hp.2]
          have hfp : farmPathOf dic rootDir sp farmD fid fuel = none := by
            simp [farmPathOf, hr]
          refine ⟨rfl, ?_, ?_⟩
          · intro fp hfp'
            rw [hfp] at hfp'
            cases hfp'
          · intro pr hin hout
            exact absurd hin hout
        | some rel =>
          have hfp : farmPathOf dic rootDir sp farmD fid fuel =
              some (pyJoin farmD (sanitize_path rel sp)) := by
            simp [farmPathOf, hr]
          simp only [farmProcessRecord, hc, hs, hr, Bool.false_eq_true, if_false] at h
          by_cases hlink :
              st.links.any (fun l => l.1 == pyJoin farmD (sanitize_path rel sp)) = true
          · rw [if_pos hlink] at h
            injection h with h'
            have hp := (Prod.mk.injEq _ _ _ _).mp h'
            rw [← hp.1, ← hp.2]
            refine ⟨rfl, ?_, ?_⟩
            · intro fp hfp' _ hnl
              rw [hfp] at hfp'
              injection hfp' with hfp''
              rw [hfp''] at hlink
              rw [hnl] at hlink
              cases hlink
            · intro pr hin hout
              simp only [List.mem_append] at hout
              push_neg at hout
              have hpr1 : (pr.1 == pyJoin farmD (sanitize_path rel sp)) = true := by
                by_contra hne
                have : pr ∈ st.links.filter
                    (fun l => !(l.1 == pyJoin farmD (sanitize_path rel sp))) := by
                  refine List.mem_filter.mpr ⟨hin, ?_⟩
                  simp only [Bool.not_eq_true] at hne ⊢
                  simp [hne]
                exact hout.1 this
              have hpr1' : pr.1 = pyJoin farmD (sanitize_path rel sp) := by simpa using hpr1
              constructor
              · rw [hfp, hpr1']
              · refine ⟨sourcePath, ?_⟩
                rw [hpr1']
                simp
          · rw [if_neg hlink] at h
            by_cases hex : pyJoin farmD (sanitize_path rel sp) ∈ st.files ∨
                pyJoin farmD (sanitize_path rel sp) ∈
                  (addPath st.dirs (pyDirname (pyJoin farmD (sanitize_path rel sp))))
            · rw [if_pos hex] at h
              injection h with h'
              have hp := (Prod.mk.injEq _ _ _ _).mp h'
              rw [← hp.1, ← hp.2]
              refine ⟨rfl, ?_, ?_⟩
              · intro fp _ _ _
                exact ⟨Or.inl rfl, rfl⟩
              · intro pr hin hout
                exact absurd hin hout
            · rw [if_neg hex] at h
              injection h with h'
              have hp := (Prod.mk.injEq _ _ _ _).mp h'
              rw [← hp.1, ← hp.2]
              refine ⟨rfl, ?_, ?_⟩
              · intro fp hfp' hmem _
                rw [hfp] at hfp'
                injection hfp' with hfp''
                exact absurd (Or.inl (hfp'' ▸ hmem)) hex
              · intro pr hin hout
                exact absurd (List.mem_append.mpr (Or.inl hin)) hout

/-- C10 witness: a record whose farm path farm/lib/2019/photo.jpg already
exists as a real file leaves the file set and the (empty) link set
unchanged. -/
theorem farm_preserves_real_files_witness :
    farmStExistAfter.files = farmStExist.files
  ∧ farmStExistAfter.links = farmStExist.links := by
  have h := farm_preserves_real_files chainDic none false "files".data "farm".data farmFS 10 3
    metaW farmStExist FarmOutcome.skipped_exists farmStExistAfter (by decide)
  exact ⟨h.1, (h.2.1 "farm/lib/2019/photo.jpg".data (by decide) (by decide) (by decide)).2⟩

theorem insert_copied_file_hasKey_mono (tbl : List (FileId × Str)) (fid f : FileId) (fn : Str)
    (h : copiedHasKey tbl f = true) : copiedHasKey (insert_copied_file tbl fid fn) f = true := by
  unfold copiedHasKey at h ⊢
  by_cases hg : tbl.any (fun r => r.1 == fid) = true
  · rw [insert_copied_file, if_pos hg]
    exact h
  · rw [insert_copied_file, if_neg hg, List.any_append]
    simp [h]

theorem insert_copied_file_snd_mono (tbl : List (FileId × Str)) (fid : FileId) (fn : Str)
    (c : Str) (h : c ∈ tbl.map Prod.snd) :
    c ∈ (insert_copied_file tbl fid fn).map Prod.snd := by
  by_cases hg : tbl.any (fun r => r.1 == fid) = true
  · rw [insert_copied_file, if_pos hg]
    exact h
  · rw [insert_copied_file, if_neg hg, List.map_append]
    exact List.mem_append.mpr (Or.inl h)

theorem copy_worker_fst (cfg : RunCfg) (cs ss : List Str) (r : FileRow) (st : RunState) :
    (copy_worker cfg cs ss r st).map Prod.fst = classifyRow cfg cs ss r := by
  cases hc : r.contentID with
  | some cid =>
    by_cases h1 : cid ∈ cs
    · simp [copy_worker, classifyRow, hc, h1]
    · by_cases h2 : cid ∈ ss
      · simp [copy_worker, classifyRow, hc, h1, h2]
      · by_cases hd : cfg.dryRun = true
        · simp [copy_worker, classifyRow, hc, h1, h2, hd]
        · cases hp : idToPath2 cfg.dic r.fid cfg.fuel with
          | none => simp [copy_worker, classifyRow, hc, h1, h2, hd, hp]
          | some v =>
            cases v with
            | none => simp [copy_worker, classifyRow, hc, h1, h2, hd, hp]
            | some rel => simp [copy_worker, classifyRow, hc, h1, h2, hd, hp]
  | none =>
    by_cases hd : cfg.dryRun = true
    · simp [copy_worker, classifyRow, hc, hd]
    · cases hp : idToPath2 cfg.dic r.fid cfg.fuel with
      | none => simp [copy_worker, classifyRow, hc, hd, hp]
      | some v => simp [copy_worker, classifyRow, hc, hd, hp]

theorem copy_worker_state (cfg : RunCfg) (cs ss : List Str) (r : FileRow) (st : RunState)
    (o : Outcome) (st' : RunState)
    (h : copy_worker cfg cs ss r st = some (o, st')) :
    (o ≠ Outcome.copied → st' = st)
  ∧ st'.skippedTbl = st.skippedTbl
  ∧ (∀ f, copiedHasKey st.copiedTbl f = true → copiedHasKey st'.copiedTbl f = true)
  ∧ (∀ c, c ∈ snapCopied st → c ∈ snapCopied st')
  ∧ (o = Outcome.copied → copiedHasKey st'.copiedTbl r.fid = true) := by
  have hsame : st' = st → o ≠ Outcome.copied →
      (o ≠ Outcome.copied → st' = st)
      ∧ st'.skippedTbl = st.skippedTbl
      ∧ (∀ f, copiedHasKey st.copiedTbl f = true → copiedHasKey st'.copiedTbl f = true)
      ∧ (∀ c, c ∈ snapCopied st → c ∈ snapCopied st')
      ∧ (o = Outcome.copied → copiedHasKey st'.copiedTbl r.fid = true) := by
    intro he hne
    subst he
    exact ⟨fun _ => rfl, rfl, fun f hf => hf, fun c hc => hc, fun hcop => absurd hcop hne⟩
  cases hc : r.contentID with
  | some cid =>
    by_cases h1 : cid ∈ cs
    · have hcw : copy_worker cfg cs ss r st = some (Outcome.skipped_already, st) := by
        simp [copy_worker, hc, h1]
      rw [hcw] at h
      injection h with h'
      obtain ⟨ho, hst⟩ := (Prod.mk.injEq _ _ _ _).mp h'
      exact hsame hst.symm (by rw [← ho]; decide)
    · by_cases h2 : cid ∈ ss
      · have hcw : copy_worker cfg cs ss r st = some (Outcome.skipped_problem, st) := by
          simp [copy_worker, hc, h1, h2]
        rw [hcw] at h
        injection h with h'
        obtain ⟨ho, hst⟩ := (Prod.mk.injEq _ _ _ _).mp h'
        exact hsame hst.symm (by rw [← ho]; decide)
      · by_cases hd : cfg.dryRun = true
        · have hcw : copy_worker cfg cs ss r st = some (Outcome.dry_run, st) := by
            simp [copy_worker, hc, h1, h2, hd]
          rw [hcw] at h
          injection h with h'
          obtain ⟨ho, hst⟩ := (Prod.mk.injEq _ _ _ _).mp h'
          exact hsame hst.symm (by rw [← ho]; decide)
        · cases hp : idToPath2 cfg.dic r.fid cfg.fuel with
          | none =>
            have hcw : copy_worker cfg cs ss r st = none := by
              simp [copy_worker, hc, h1, h2, hd, hp]
            rw [hcw] at h
            cases h
          | some v =>
            cases v with
            | none =>
              have hcw : copy_worker cfg cs ss r st = some (Outcome.errored, st) := by
                simp [copy_worker, hc, h1, h2, hd, hp]
              rw [hcw] at h
              injection h with h'
              obtain ⟨ho, hst⟩ := (Prod.mk.injEq _ _ _ _).mp h'
              exact hsame hst.symm (by rw [← ho]; decide)
            | some rel =>
              have hcw : copy_worker cfg cs ss r st = some (Outcome.copied,
                  { st with
                    destDirs := addPath st.destDirs (pyDirname (pyJoin cfg.dumpdir
                      (pyReplace ['|'] ['-'] (cfg.skipnames.foldl
                        (fun acc skip => pyReplace skip [] acc) rel))))
                    destFiles := addPath st.destFiles (pyJoin cfg.dumpdir
                      (pyReplace ['|'] ['-'] (cfg.skipnames.foldl
                        (fun acc skip => pyReplace skip [] acc) rel)))
                    copiedTbl := insert_copied_file st.copiedTbl r.fid cid }) := by
                simp [copy_worker, hc, h1, h2, hd, hp]
              rw [hcw] at h
              injection h with h'
              obtain ⟨ho, hst⟩ := (Prod.mk.injEq _ _ _ _).mp h'
              rw [← hst]
              refine ⟨fun hne => absurd ho.symm hne, rfl, ?_, ?_, fun _ =>
                insert_copied_file_hasKey st.copiedTbl r.fid cid⟩
              · intro f hf
                exact insert_copied_file_hasKey_mono st.copiedTbl r.fid f cid hf
              · intro c hcm
                exact insert_copied_file_snd_mono st.copiedTbl r.fid cid c hcm
  | none =>
    by_cases hd : cfg.dryRun = true
    · have hcw : copy_worker cfg cs ss r st = some (Outcome.dry_run, st) := by
        simp [copy_worker, hc, hd]
      rw [hcw] at h
      injection h with h'
      obtain ⟨ho, hst⟩ := (Prod.mk.injEq _ _ _ _).mp h'
      exact hsame hst.symm (by rw [← ho]; decide)
    · cases hp : idToPath2 cfg.dic r.fid cfg.fuel with
      | none =>
        have hcw : copy_worker cfg cs ss r st = none := by
          simp [copy_worker, hc, hd, hp]
        rw [hcw] at h
        cases h
      | some v =>
        have hcw : copy_worker cfg cs ss r st = some (Outcome.errored, st) := by
          simp [copy_worker, hc, hd, hp]
        rw [hcw] at h
        injection h with h'
        obtain ⟨ho, hst⟩ := (Prod.mk.injEq _ _ _ _).mp h'
        exact hsame hst.symm (by rw [← ho]; decide)

theorem runWorkers_spec (cfg : RunCfg) (cs ss : List Str) : ∀ (todo : List FileRow)
    (st : RunState) (outs : List Outcome) (st' : RunState),
    runWorkers cfg cs ss todo st = some (outs, st') →
    st'.skippedTbl = st.skippedTbl
    ∧ (∀ f, copiedHasKey st.copiedTbl f = true → copiedHasKey st'.copiedTbl f = true)
    ∧ (∀ c, c ∈ snapCopied st → c ∈ snapCopied st')
    ∧ (∀ o, o ∈ outs → ∃ r, r ∈ todo ∧ classifyRow cfg cs ss r = some o)
    ∧ (∀ r, r ∈ todo → ∃ o, classifyRow cfg cs ss r = some o ∧ o ∈ outs
        ∧ (o = Outcome.copied → copiedHasKey st'.copiedTbl r.fid = true))
    ∧ ((∀ o, o ∈ outs → o ≠ Outcome.copied) → st' = st) := by
  intro todo
  induction todo with
  | nil =>
    intro st outs st' h
    simp only [runWorkers] at h
    injection h with h'
    obtain ⟨houts, hst⟩ := (Prod.mk.injEq _ _ _ _).mp h'
    rw [← houts, ← hst]
    refine ⟨rfl, fun f hf => hf, fun c hc => hc, ?_, ?_, fun _ => rfl⟩
    · intro o ho
      cases ho
    · intro r hr
      cases hr
  | cons r rest ih =>
    intro st outs st' h
    cases hw : copy_worker cfg cs ss r st with
    | none =>
      simp only [runWorkers, hw] at h
      cases h
    | some p =>
      obtain ⟨o1, st1⟩ := p
      simp only [runWorkers, hw] at h
      cases hr : runWorkers cfg cs ss rest st1 with
      | none => rw [hr] at h; cases h
      | some q =>
        obtain ⟨os, st2⟩ := q
        rw [hr] at h
        injection h with h'
        obtain ⟨houts, hst⟩ := (Prod.mk.injEq _ _ _ _).mp h'
        rw [← houts, ← hst]
        have hws := copy_worker_state cfg cs ss r st o1 st1 hw
        have ihr := ih st1 os st2 hr
        have hcls1 : classifyRow cfg cs ss r = some o1 := by
          rw [← copy_worker_fst cfg cs ss r st, hw]
          rfl
        refine ⟨?_, ?_, ?_, ?_, ?_, ?_⟩
        · exact ihr.1.trans hws.2.1
        · intro f hf
          exact ihr.2.1 f (hws.2.2.1 f hf)
        · intro c hc
          exact ihr.2.2.1 c (hws.2.2.2.1 c hc)
        · intro o ho
          rcases List.mem_cons.mp ho with he | htail
          · exact ⟨r, List.mem_cons_self r rest, he ▸ hcls1⟩
          · obtain ⟨r', hr', hcls'⟩ := ihr.2.2.2.1 o htail
            exact ⟨r', List.mem_cons_of_mem r hr', hcls'⟩
        · intro r' hr'
          rcases List.mem_cons.mp hr' with he | htail
          · refine ⟨o1, he ▸ hcls1, List.mem_cons_self o1 os, ?_⟩
            intro hcop
            subst he
            exact ihr.2.1 r'.fid (hws.2.2.2.2 hcop)
          · obtain ⟨o, hcls', homem, hkey⟩ := ihr.2.2.2.2.1 r' htail
            exact ⟨o, hcls', List.mem_cons_of_mem o1 homem, hkey⟩
        · intro hnc
          have h1 : st1 = st := hws.1 (hnc o1 (List.mem_cons_self o1 os))
          have h2 : st2 = st1 := ihr.2.2.2.2.2 (fun o ho => hnc o (List.mem_cons_of_mem o1 ho))
          exact h2.trans h1

theorem classifyRow_not_dry (cfg : RunCfg) (cs ss : List Str) (r : FileRow) (o : Outcome)
    (hdry : cfg.dryRun = false) (h : classifyRow cfg cs ss r = some o) :
    o ≠ Outcome.dry_run := by
  cases hc : r.contentID with
  | some cid =>
    by_cases h1 : cid ∈ cs
    · rw [show classifyRow cfg cs ss r = some Outcome.skipped_already by
        simp [classifyRow, hc, h1]] at h
      injection h with h'
      rw [← h']
      decide
    · by_cases h2 : cid ∈ ss
      · rw [show classifyRow cfg cs ss r = some Outcome.skipped_problem by
          simp [classifyRow, hc, h1, h2]] at h
        injection h with h'
        rw [← h']
        decide
      · cases hp : idToPath2 cfg.dic r.fid cfg.fuel with
        | none =>
          rw [show classifyRow cfg cs ss r = none by
            simp [classifyRow, hc, h1, h2, hdry, hp]] at h
          cases h
        | some v =>
          cases v with
          | none =>
            rw [show classifyRow cfg cs ss r = some Outcome.errored by
              simp [classifyRow, hc, h1, h2, hdry, hp]] at h
            injection h with h'
            rw [← h']
            decide
          | some rel =>
            rw [show classifyRow cfg cs ss r = some Outcome.copied by
              simp [classifyRow, hc, h1, h2, hdry, hp]] at h
            injection h with h'
            rw [← h']
            decide
  | none =>
    cases hp : idToPath2 cfg.dic r.fid cfg.fuel with
    | none =>
      rw [show classifyRow cfg cs ss r = none by simp [classifyRow, hc, hdry, hp]] at h
      cases h
    | some v =>
      rw [show classifyRow cfg cs ss r = some Outcome.errored by
        simp [classifyRow, hc, hdry, hp]] at h
      injection h with h'
      rw [← h']
      decide

theorem classifyRow_second (cfg : RunCfg) (cs0 ss0 cs1 ss1 : List Str) (r : FileRow)
    (o0 o1 : Outcome)
    (hdry : cfg.dryRun = false)
    (h0 : classifyRow cfg cs0 ss0 r = some o0)
    (h1 : classifyRow cfg cs1 ss1 r = some o1)
    (hnc : o0 ≠ Outcome.copied)
    (hsub : ∀ c, c ∈ cs0 → c ∈ cs1)
    (hss : ss1 = ss0) :
    (o1 = Outcome.skipped_already ∨ o1 = Outcome.skipped_problem ∨ o1 = Outcome.errored)
    ∧ (o0 ≠ Outcome.errored → o1 ≠ Outcome.errored) := by
  rw [hss] at h1
  cases hc : r.contentID with
  | none =>
    cases hp : idToPath2 cfg.dic r.fid cfg.fuel with
    | none =>
      rw [show classifyRow cfg cs0 ss0 r = none by simp [classifyRow, hc, hdry, hp]] at h0
      cases h0
    | some v =>
      rw [show classifyRow cfg cs0 ss0 r = some Outcome.errored by
        simp [classifyRow, hc, hdry, hp]] at h0
      rw [show classifyRow cfg cs1 ss0 r = some Outcome.errored by
        simp [classifyRow, hc, hdry, hp]] at h1
      injection h0 with h0'
      injection h1 with h1'
      rw [← h0', ← h1']
      exact ⟨Or.inr (Or.inr rfl), fun hne => absurd rfl hne⟩
  | some cid =>
    by_cases hm1 : cid ∈ cs0
    · rw [show classifyRow cfg cs0 ss0 r = some Outcome.skipped_already by
        simp [classifyRow, hc, hm1]] at h0
      rw [show classifyRow cfg cs1 ss0 r = some Outcome.skipped_already by
        simp [classifyRow, hc, hsub cid hm1]] at h1
      injection h1 with h1'
      rw [← h1']
      exact ⟨Or.inl rfl, fun _ => by decide⟩
    · by_cases hm1' : cid ∈ cs1
      · rw [show classifyRow cfg cs1 ss0 r = some Outcome.skipped_already by
          simp [classifyRow, hc, hm1']] at h1
        injection h1 with h1'
        rw [← h1']
        exact ⟨Or.inl rfl, fun _ => by decide⟩
      · by_cases hm2 : cid ∈ ss0
        · rw [show classifyRow cfg cs1 ss0 r = some Outcome.skipped_problem by
            simp [classifyRow, hc, hm1', hm2]] at h1
          injection h1 with h1'
          rw [← h1']
          exact ⟨Or.inr (Or.inl rfl), fun _ => by decide⟩
        · cases hp : idToPath2 cfg.dic r.fid cfg.fuel with
          | none =>
            rw [show classifyRow cfg cs0 ss0 r = none by
              simp [classifyRow, hc, hm1, hm2, hdry, hp]] at h0
            cases h0
          | some v =>
            cases v with
            | none =>
              rw [show classifyRow cfg cs0 ss0 r = some Outcome.errored by
                simp [classifyRow, hc, hm1, hm2, hdry, hp]] at h0
              rw [show classifyRow cfg cs1 ss0 r = some Outcome.errored by
                simp [classifyRow, hc, hm1', hm2, hdry, hp]] at h1
              injection h0 with h0'
              injection h1 with h1'
              rw [← h0', ← h1']
              exact ⟨Or.inr (Or.inr rfl), fun hne => absurd rfl hne⟩
            | some rel =>
              rw [show classifyRow cfg cs0 ss0 r = some Outcome.copied by
                simp [classifyRow, hc, hm1, hm2, hdry, hp]] at h0
              injection h0 with h0'
              exact absurd h0'.symm hnc

/-- C4 counterexample: the claim says every record processed in the second
run ends in a skipped outcome.  A directory row (null contentID) passes
the resume SQL filter, reaches the copy branch, and errors when
os.path.join(filedir, None) raises; since the run state is unchanged, the
second run processes the same record and it ends errored again, not
skipped, in every run. -/
theorem second_run_directory_errors :
    resumeRun cfgDirW [dirRowW] st0W = some ([Outcome.errored], st0W)
  ∧ Outcome.errored ≠ Outcome.skipped_already
  ∧ Outcome.errored ≠ Outcome.skipped_problem := by
  refine ⟨by decide, by decide, by decide⟩

/-- C4 (amended): running the resume pipeline twice with no interleaving
changes leaves the state after the second run identical to the state after
the first (identical destination tree and ledger), and the second run
performs zero byte copies; every record processed in the second run is
either skipped through the ledger snapshot sets or repeats a deterministic
errored outcome, and if the first run produced no errored outcomes then
every record processed in the second run ends skipped. -/
theorem resume_rerun_converges (cfg : RunCfg) (recs : List FileRow) (st0 : RunState)
    (outs1 : List Outcome) (st1 : RunState) (outs2 : List Outcome) (st2 : RunState)
    (hdry : cfg.dryRun = false)
    (h1 : resumeRun cfg recs st0 = some (outs1, st1))
    (h2 : resumeRun cfg recs st1 = some (outs2, st2)) :
    st2 = st1
  ∧ List.count Outcome.copied outs2 = 0
  ∧ (∀ o, o ∈ outs2 → o = Outcome.skipped_already ∨ o = Outcome.skipped_problem ∨
      o = Outcome.errored)
  ∧ ((∀ o, o ∈ outs1 → o ≠ Outcome.errored) →
      ∀ o, o ∈ outs2 → o = Outcome.skipped_already ∨ o = Outcome.skipped_problem) := by
  unfold resumeRun at h1 h2
  have spec1 := runWorkers_spec cfg (snapCopied st0) (snapSkipped st0) _ _ _ _ h1
  have spec2 := runWorkers_spec cfg (snapCopied st1) (snapSkipped st1) _ _ _ _ h2
  have hmain : ∀ o, o ∈ outs2 →
      (o = Outcome.skipped_already ∨ o = Outcome.skipped_problem ∨ o = Outcome.errored)
      ∧ ((∀ o', o' ∈ outs1 → o' ≠ Outcome.errored) →
          (o = Outcome.skipped_already ∨ o = Outcome.skipped_problem)) := by
    intro o ho
    obtain ⟨r, hrmem, hcls1⟩ := spec2.2.2.2.1 o ho
    obtain ⟨hrecs, hcond⟩ := List.mem_filter.mp hrmem
    rw [Bool.and_eq_true] at hcond
    have hnk1 : copiedHasKey st1.copiedTbl r.fid = false := by
      have hx := hcond.1
      cases hk : copiedHasKey st1.copiedTbl r.fid with
      | false => rfl
      | true => rw [hk] at hx; cases hx
    have hmem0 : r ∈ files_to_copy recs st0 := by
      refine List.mem_filter.mpr ⟨hrecs, ?_⟩
      rw [Bool.and_eq_true]
      constructor
      · cases hk : copiedHasKey st0.copiedTbl r.fid with
        | false => rfl
        | true =>
          have := spec1.2.1 r.fid hk
          rw [hnk1] at this
          cases this
      · have hx := hcond.2
        cases hcid : r.contentID with
        | none => rfl
        | some cid =>
          rw [hcid] at hx
          have hx' : (!skippedHasKey st1.skippedTbl cid) = true := hx
          rw [spec1.1] at hx'
          exact hx'
    obtain ⟨o0, hcls0, ho0mem, hcop⟩ := spec1.2.2.2.2.1 r hmem0
    have hnc : o0 ≠ Outcome.copied := by
      intro he
      have hk := hcop he
      rw [hnk1] at hk
      cases hk
    have hsecond := classifyRow_second cfg (snapCopied st0) (snapSkipped st0)
      (snapCopied st1) (snapSkipped st1) r o0 o hdry hcls0 hcls1 hnc
      spec1.2.2.1 (by unfold snapSkipped; rw [spec1.1])
    refine ⟨hsecond.1, ?_⟩
    intro hne
    rcases hsecond.1 with h | h | h
    · exact Or.inl h
    · exact Or.inr h
    · exact absurd h (hsecond.2 (hne o0 ho0mem))
  refine ⟨?_, ?_, fun o ho => (hmain o ho).1, fun hne o ho => (hmain o ho).2 hne⟩
  · apply spec2.2.2.2.2.2
    intro o ho
    rcases (hmain o ho).1 with h | h | h <;> (rw [h]; decide)
  · rw [List.count_eq_zero]
    intro hmem
    rcases (hmain _ hmem).1 with h | h | h <;> exact absurd h (by decide)

/-- C4 amended witness: with a single resolvable file record and an empty
initial state, the first run copies it and the second run processes
nothing, changes nothing and copies nothing. -/
theorem resume_rerun_converges_witness :
    List.count Outcome.copied ([] : List Outcome) = 0 ∧ st1W = st1W := by
  have h := resume_rerun_converges cfgW [rowW] st0W [Outcome.copied] st1W [] st1W rfl
    (by decide) (by decide)
  exact ⟨h.2.1, h.1⟩
